import Mathlib

/-!
Shallow embedding of the taxonomy-resolution core of ALEX
(src/function/alex_functions.py) and proofs about it.

Python dicts are modelled as insertion-ordered association lists
(`Dict α = List (String × α)`); `collections.defaultdict` reads that insert
a default value are modelled explicitly where the inserted entry is
observable.  Fallible Python operations (KeyError, IndexError, ValueError)
are modelled with `Except String`.
-/

namespace Alex

/-- An insertion-ordered string-keyed map, the model of a Python dict. -/
abbrev Dict (α : Type) := List (String × α)

/-- Lookup (Python `d[k]` when it succeeds / `k in d`). -/
def dget? {α : Type} : Dict α → String → Option α
  | [], _ => none
  | (k, v) :: d, key => if k = key then some v else dget? d key

/-- Lookup with a default value. -/
def dgetD {α : Type} (d : Dict α) (key : String) (dflt : α) : α :=
  (dget? d key).getD dflt

/-- Assignment (Python `d[k] = v`): update in place, else append, preserving
insertion order as Python dicts do. -/
def dset {α : Type} : Dict α → String → α → Dict α
  | [], key, v => [(key, v)]
  | (k, w) :: d, key, v =>
      if k = key then (k, v) :: d else (k, w) :: dset d key v

/-- The keys of a dict in insertion order. -/
def dkeys {α : Type} (d : Dict α) : List String := d.map Prod.fst

/-- Splitting a character list on a separator, the model of Python
str.split with a one-character separator; never returns an empty list. -/
def splitOnChar (sep : Char) : List Char → List (List Char)
  | [] => [[]]
  | a :: rest =>
    match splitOnChar sep rest with
    | [] => [[]]
    | g :: gs => if a = sep then [] :: g :: gs else (a :: g) :: gs

def allDigits (cs : List Char) : Bool := cs.all (fun c => c.isDigit)

def digitsToNat (cs : List Char) : Nat := cs.foldl (fun n c => 10 * n + (c.toNat - 48)) 0

/-- Modelled Python int(): an optional sign followed by at least one digit
(the whitespace- and underscore-free core of the builtin). -/
def pyInt? : List Char → Option Int
  | '-' :: r => if r ≠ [] ∧ allDigits r then some (-(digitsToNat r : Int)) else none
  | '+' :: r => if r ≠ [] ∧ allDigits r then some ((digitsToNat r : Int)) else none
  | cs => if cs ≠ [] ∧ allDigits cs then some ((digitsToNat cs : Int)) else none

/-- Decimal core of Python float(): digits, optionally with one point,
at least one digit overall; the value is kept exactly as a rational. -/
def pyFloatCore (cs : List Char) : Option ℚ :=
  match splitOnChar '.' cs with
  | [a] => if a ≠ [] ∧ allDigits a then some ((digitsToNat a : ℚ)) else none
  | [a, b] =>
      if (a ≠ [] ∨ b ≠ []) ∧ allDigits a ∧ allDigits b then
        some ((digitsToNat a : ℚ) + (digitsToNat b : ℚ) / ((10 : ℚ) ^ b.length))
      else none
  | _ => none

/-- Modelled Python float(): optional sign around the decimal core
(exponents, infinities and nan are outside the modelled subset). -/
def pyFloat? : List Char → Option ℚ
  | '-' :: r => (pyFloatCore r).map (fun q => -q)
  | '+' :: r => pyFloatCore r
  | cs => pyFloatCore cs

/-- A well-formed alignment-hit record, the fields blast_to_memory consumes
from one line. -/
structure Hit where
  seq_id : String
  tax_id : String
  pident : ℚ
  qcov : Int
deriving DecidableEq

/-- The three structures blast_to_memory accumulates. -/
structure BlastState where
  blast : Dict (ℚ × Int)
  species : Dict (List String)
  uniq : List String
deriving DecidableEq

/-- Appending to uniq_species_list only when the taxon is new. -/
def addUniq (u : List String) (t : String) : List String :=
  if t ∈ u then u else u ++ [t]

/-- One streamed hit record folded into the state: the tie-break policy of
blast_to_memory (source lines 99-126), with the branch order of the Python
if/elif chain.  The defaultdict read inside the membership test is modelled
without its insert-on-read, which is unobservable while the blast and
species dicts share their key set (an invariant of the construction). -/
def blastStep (st : BlastState) (h : Hit) : BlastState :=
  match dget? st.blast h.seq_id with
  | none =>
      { blast := dset st.blast h.seq_id (h.pident, h.qcov)
        species := dset st.species h.seq_id (dgetD st.species h.seq_id [] ++ [h.tax_id])
        uniq := addUniq st.uniq h.tax_id }
  | some (bp, bq) =>
      let cur := dgetD st.species h.seq_id []
      if h.pident = bp ∧ h.qcov = bq ∧ h.tax_id ∉ cur ∧ h.tax_id ≠ "N/A" then
        { st with
            species := dset st.species h.seq_id (cur ++ [h.tax_id])
            uniq := addUniq st.uniq h.tax_id }
      else if bp < h.pident ∧ h.qcov = bq then
        { blast := dset st.blast h.seq_id (h.pident, h.qcov)
          species := dset st.species h.seq_id [h.tax_id]
          uniq := addUniq st.uniq h.tax_id }
      else if h.pident = bp ∧ bq < h.qcov then
        { blast := dset st.blast h.seq_id (h.pident, h.qcov)
          species := dset st.species h.seq_id [h.tax_id]
          uniq := addUniq st.uniq h.tax_id }
      else if bp < h.pident ∧ bq < h.qcov then
        { blast := dset st.blast h.seq_id (h.pident, h.qcov)
          species := dset st.species h.seq_id [h.tax_id]
          uniq := addUniq st.uniq h.tax_id }
      else st

/-- The empty accumulator state of blast_to_memory. -/
def emptyBlastState : BlastState := ⟨[], [], []⟩

/-- The single streaming pass of blast_to_memory over already-parsed hit
records. -/
def blastFold (hits : List Hit) : BlastState := hits.foldl blastStep emptyBlastState

/-- Per-line parse of the alignment-hit file (source lines 93-98): the skip
sentinel yields none; a missing tab field or a failing numeric conversion is
the uncaught IndexError/ValueError of the Python code.  Lines are modelled
without their trailing newline. -/
def parseLine (line : String) : Except String (Option Hit) :=
  if line = "not assigned" then .ok none else
  let fields := splitOnChar '\t' line.toList
  let seq_id : String := ⟨(splitOnChar ';' (fields.headD [])).headD []⟩
  match fields[2]? with
  | none => .error "IndexError"
  | some tax =>
    match fields[5]? with
    | none => .error "IndexError"
    | some f5 =>
      match pyFloat? f5 with
      | none => .error "ValueError"
      | some pid =>
        match fields[7]? with
        | none => .error "IndexError"
        | some f7 =>
          match pyInt? f7 with
          | none => .error "ValueError"
          | some qc => .ok (some ⟨seq_id, ⟨tax⟩, pid, qc⟩)

/-- Streaming loop of blast_to_memory over raw lines. -/
def blastLines : BlastState → List String → Except String BlastState
  | st, [] => .ok st
  | st, l :: ls =>
    match parseLine l with
    | .error e => .error e
    | .ok none => blastLines st ls
    | .ok (some h) => blastLines (blastStep st h) ls

/-- blast_to_memory on a list of raw input lines. -/
def blastToMemory (lines : List String) : Except String BlastState :=
  blastLines emptyBlastState lines

/-- The filled best-hit dict: existing numeric entries are kept, back-filled
clusters carry the NA marker pair, modelled as none. -/
structure FilledState where
  blast : Dict (Option (ℚ × Int))
  species : Dict (List String)
deriving DecidableEq

/-- One universe id folded in by fill_out_blast_dict (source lines 169-174):
a cluster missing from the best-hit dict gets the NA pident/qcov pair and
'NA' appended to its (defaultdict) candidate list. -/
def fillStep (st : FilledState) (item : String) : FilledState :=
  if (dget? st.blast item).isSome then st
  else
    { blast := dset st.blast item none
      species := dset st.species item (dgetD st.species item [] ++ ["NA"]) }

/-- fill_out_blast_dict (source lines 162-175). -/
def fill_out_blast_dict (zotu : List String) (st : BlastState) : FilledState :=
  zotu.foldl fillStep ⟨st.blast.map (fun kv => (kv.1, some kv.2)), st.species⟩

/-- The canonical rank sequence. -/
def ranks_needed : List String :=
  ["kingdom", "phylum", "class", "order", "family", "genus", "species"]

/-- The all-unknown canonical lineage built by the KeyError fallback of
generate_mrca's single-candidate branch. -/
def naLineage : List String := ranks_needed.map (fun _ => "NA")

/-- Rank-wise narrowing of the running consensus against one candidate
lineage, on the positions of the consensus. -/
def narrowOk (m l : List String) : List String :=
  m.zipWith (fun a b => if a = b then a else "NA") l

/-- The narrowing loop of generate_mrca (source lines 373-375); a candidate
lineage shorter than the consensus is the loop's uncaught IndexError. -/
def narrowExc (m l : List String) : Except String (List String) :=
  if l.length < m.length then .error "IndexError" else .ok (narrowOk m l)

/-- A defaultdict(list) read: returns the entry and the dict, inserting an
empty list first when the key is missing (Python's insert-on-read). -/
def ddread (d : Dict (List String)) (k : String) : List String × Dict (List String) :=
  match dget? d k with
  | some v => (v, d)
  | none => ([], dset d k [])

/-- Accumulator of the multi-candidate merge: the candidate count, the taxon
id whose stored lineage the running consensus aliases, the consensus, and
the threaded lineage dict. -/
structure MergeAcc where
  count : Nat
  firstTid : String
  mlin : List String
  filt : Dict (List String)
deriving DecidableEq

/-- One candidate folded into the multi-candidate merge of generate_mrca
(source lines 365-375).  The Python mrca_lineage list aliases the stored
lineage of the first contributing candidate, so every narrowing write is
also written back to that taxon's entry of the lineage dict. -/
def mergeStep (taxid : Dict String) (acc : MergeAcc) (name : String) :
    Except String MergeAcc :=
  match dget? taxid name with
  | none => .error "KeyError"
  | some tid =>
    let p := ddread acc.filt tid
    if p.1 = [] then .ok { acc with filt := p.2 }
    else if acc.count = 0 then .ok ⟨1, tid, p.1, p.2⟩
    else
      match narrowExc acc.mlin p.1 with
      | .error e => .error e
      | .ok m => .ok ⟨acc.count + 1, acc.firstTid, m, dset p.2 acc.firstTid m⟩

/-- The candidate loop of the multi-candidate branch. -/
def mergeRun (taxid : Dict String) : MergeAcc → List String → Except String MergeAcc
  | acc, [] => .ok acc
  | acc, c :: cs =>
    match mergeStep taxid acc c with
    | .error e => .error e
    | .ok acc' => mergeRun taxid acc' cs

/-- Consensus for one cluster (the body of generate_mrca's per-item loop,
source lines 354-376): single-candidate lookup with its KeyError fallback,
or the multi-candidate merge. -/
def genMrcaItem (taxid : Dict String) (filt : Dict (List String)) (cands : List String) :
    Except String (List String × Dict (List String)) :=
  match cands with
  | [c] =>
    match dget? taxid c with
    | none => .ok (naLineage, filt)
    | some tid =>
      let p := ddread filt tid
      .ok (p.1, p.2)
  | _ =>
    match mergeRun taxid ⟨0, "", [], filt⟩ cands with
    | .error e => .error e
    | .ok acc => .ok (acc.mlin, acc.filt)

/-- The per-cluster loop of generate_mrca threading the (mutated) lineage
dict; stored consensus values are snapshots of the merged lists (no claim
below reads a stored consensus after a later cluster's mutation). -/
def genMrcaRun (taxid : Dict String) :
    List (String × List String) → Dict (List String) → Dict (List String) →
    Except String (Dict (List String) × Dict (List String))
  | [], mrca, filt => .ok (mrca, filt)
  | (item, cands) :: rest, mrca, filt =>
    match genMrcaItem taxid filt cands with
    | .error e => .error e
    | .ok (lin, filt') => genMrcaRun taxid rest (dset mrca item lin) filt'

/-- generate_mrca (source lines 347-377), returning the consensus dict and
the lineage dict as it stands after the call. -/
def generate_mrca (species : Dict (List String)) (filt : Dict (List String))
    (taxid : Dict String) :
    Except String (Dict (List String) × Dict (List String)) :=
  genMrcaRun taxid species [] filt

/-- A raw walked lineage entry: rank name, taxon identifier, scientific name. -/
abbrev Entry := String × String × String

/-- The names contributed for one canonical rank by filter_lineage's inner
loop (source lines 337-344): one entry per matching raw entry in walk order,
or the unknown marker when none matches. -/
def projectRank (raw : List Entry) (rank : String) : List String :=
  let ms := (raw.filter (fun e => e.1 = rank)).map (fun e => e.2.2)
  if ms = [] then ["NA"] else ms

/-- filter_lineage for a single raw lineage. -/
def filterLineageOne (raw : List Entry) : List String :=
  ranks_needed.foldl (fun acc r => acc ++ projectRank raw r) []

/-- filter_lineage (source lines 326-345) over the whole lineage dict. -/
def filter_lineage (d : Dict (List Entry)) : Dict (List String) :=
  d.map (fun kv => (kv.1, filterLineageOne kv.2))

/-- One parent step in the taxonomy graph. -/
def pstep (nodes : Dict (String × String)) (x : String) : Option String :=
  (dget? nodes x).map (fun rv => rv.2)

/-- Iterated parent steps. -/
def pstepN (nodes : Dict (String × String)) : Nat → String → Option String
  | 0, x => some x
  | n + 1, x =>
    match pstep nodes x with
    | none => none
    | some y => pstepN nodes n y

/-- The while loop of generate_lineage (source lines 321-323) with explicit
fuel: none means the loop has not finished within the given fuel; an error
is the uncaught KeyError of a dangling identifier. -/
def lineageWalk (nodes : Dict (String × String)) (names : Dict String)
    (item : String) : Nat → Option (Except String (List Entry))
  | 0 => none
  | fuel + 1 =>
    match dget? nodes item with
    | none => some (.error "KeyError")
    | some (rank, up) =>
      if item = up then some (.ok [])
      else
        match dget? names item with
        | none => some (.error "KeyError")
        | some nm =>
          match lineageWalk nodes names up fuel with
          | none => none
          | some (.error e) => some (.error e)
          | some (.ok l) => some (.ok ((rank, item, nm) :: l))

/-- The walk diverges: no amount of fuel finishes it; the formal statement
that the Python while loop runs forever. -/
def walkDiverges (nodes : Dict (String × String)) (names : Dict String)
    (x : String) : Prop :=
  ∀ fuel, lineageWalk nodes names x fuel = none

/-- generate_lineage (source lines 308-324) with explicit fuel per walk. -/
def generate_lineage (fuel : Nat) (species_taxid : Dict String)
    (nodes : Dict (String × String)) (names : Dict String) :
    Option (Except String (Dict (List Entry))) :=
  (species_taxid.map Prod.snd).foldl
    (fun acc item =>
      match acc with
      | none => none
      | some (.error e) => some (.error e)
      | some (.ok d) =>
        if item = "NA" then some (.ok d)
        else
          match lineageWalk nodes names item fuel with
          | none => none
          | some (.error e) => some (.error e)
          | some (.ok l) => some (.ok (dset d item (dgetD d item [] ++ l))))
    (some (.ok []))

/-- One data row of the report. -/
structure Row where
  otu : String
  lineage : List String
  pident : Option ℚ
  qcov : Option Int
  taxa : List String
deriving DecidableEq

/-- write_output (source lines 379-388): one row per key of the best-hit
dict in dict order; a cluster missing from mrca_dict is the uncaught
KeyError of the f-string lookup. -/
def write_output : Dict (Option (ℚ × Int)) → Dict (List String) → Dict (List String) →
    Except String (List Row)
  | [], _, _ => .ok []
  | kv :: rest, mrca, species =>
    match dget? mrca kv.1 with
    | none => .error "KeyError"
    | some lin =>
      match write_output rest mrca species with
      | .error e => .error e
      | .ok rows =>
        .ok (⟨kv.1, lin, kv.2.map Prod.fst, kv.2.map Prod.snd, dgetD species kv.1 []⟩ :: rows)


/-- Concrete hit records used by witnesses and counterexamples below. -/
def demoHits : List Hit := [⟨"Z2", "SpA", 98, 100⟩]

/-- Concrete cluster universe. -/
def demoZotu : List String := ["Z1", "Z2"]

/-- Concrete species-name to taxon-id map. -/
def demoTaxid : Dict String := [("SpA", "1"), ("SpB", "2")]

/-- Concrete filtered lineage table: two lineages agreeing above species. -/
def demoFilt : Dict (List String) :=
  [("1", ["An", "Ch", "Ma", "Ca", "Fe", "Fel", "cat"]),
   ("2", ["An", "Ch", "Ma", "Ca", "Fe", "Fel", "sil"])]

/-- Concrete species_dict with one two-candidate cluster. -/
def demoSpecies : Dict (List String) := [("Q1", ["SpA", "SpB"])]

/-- A concrete well-formed taxonomy: 3 → 2 → 1, root self-parenting. -/
def demoNodes : Dict (String × String) :=
  [("3", ("species", "2")), ("2", ("genus", "1")), ("1", ("root", "1"))]

/-- Names for the concrete taxonomy. -/
def demoNames : Dict String := [("3", "S"), ("2", "G"), ("1", "R")]

/-- Concrete consensus dict matching the demo pipeline. -/
def demoMrca : Dict (List String) :=
  [("Z2", ["An", "Ch", "Ma", "Ca", "Fe", "Fel", "cat"]), ("Z1", naLineage)]

/-- A cyclic taxonomy: 1 → 2 → 1 with no self-parenting node. -/
def cycNodes : Dict (String × String) := [("1", ("genus", "2")), ("2", ("family", "1"))]

/-- Names for the cyclic taxonomy. -/
def cycNames : Dict String := [("1", "A"), ("2", "B")]

/- ===== Lemmas and claim theorems ===== -/

theorem dget?_nil {α : Type} (key : String) : dget? ([] : Dict α) key = none := rfl

theorem dget?_cons {α : Type} (k : String) (v : α) (d : Dict α) (key : String) :
    dget? ((k, v) :: d) key = if k = key then some v else dget? d key := rfl

theorem dget?_dset_self {α : Type} (d : Dict α) (k : String) (v : α) :
    dget? (dset d k v) k = some v := by
  induction d with
  | nil => simp [dset, dget?]
  | cons hd tl ih =>
      obtain ⟨k', w⟩ := hd
      by_cases h : k' = k <;> simp [dset, dget?, h, ih]

theorem dget?_dset_ne {α : Type} (d : Dict α) (k k' : String) (v : α) (h : k ≠ k') :
    dget? (dset d k v) k' = dget? d k' := by
  induction d with
  | nil => simp [dset, dget?, h]
  | cons hd tl ih =>
      obtain ⟨k'', w⟩ := hd
      by_cases h2 : k'' = k
      · subst h2
        simp [dset, dget?, h]
      · simp [dset, dget?, h2, ih]

theorem dkeys_dset_of_mem {α : Type} (d : Dict α) (k : String) (v : α)
    (h : (dget? d k).isSome) : dkeys (dset d k v) = dkeys d := by
  induction d with
  | nil => simp [dget?] at h
  | cons hd tl ih =>
      obtain ⟨k', w⟩ := hd
      by_cases h2 : k' = k
      · simp [dset, dkeys, h2]
      · simp [dget?, h2] at h
        simp [dset, dkeys, h2] at ih ⊢
        exact ih h

theorem dkeys_dset_of_not_mem {α : Type} (d : Dict α) (k : String) (v : α)
    (h : dget? d k = none) : dkeys (dset d k v) = dkeys d ++ [k] := by
  induction d with
  | nil => simp [dset, dkeys]
  | cons hd tl ih =>
      obtain ⟨k', w⟩ := hd
      by_cases h2 : k' = k
      · simp [dget?, h2] at h
      · simp [dget?, h2] at h
        simp [dset, dkeys, h2] at ih ⊢
        exact ih h

theorem dget?_isSome_iff_mem_dkeys {α : Type} (d : Dict α) (k : String) :
    (dget? d k).isSome ↔ k ∈ dkeys d := by
  induction d with
  | nil => simp [dget?, dkeys]
  | cons hd tl ih =>
      obtain ⟨k', w⟩ := hd
      by_cases h : k' = k
      · simp [dget?, dkeys, h]
      · simp only [dget?_cons, if_neg h, dkeys, List.map_cons, List.mem_cons]
        rw [show List.map Prod.fst tl = dkeys tl from rfl, ih]
        constructor
        · exact fun h2 => Or.inr h2
        · rintro (h2 | h2)
          · exact absurd h2.symm h
          · exact h2

/-- Setting the value a key already holds leaves the dict unchanged. -/
theorem dset_of_dget?_eq {α : Type} (d : Dict α) (k : String) (v : α)
    (h : dget? d k = some v) : dset d k v = d := by
  induction d with
  | nil => simp [dget?] at h
  | cons hd tl ih =>
      obtain ⟨k', w⟩ := hd
      by_cases h2 : k' = k
      · subst h2
        simp [dget?] at h
        simp [dset, h]
      · simp [dget?, h2] at h
        simp [dset, h2, ih h]

theorem dset_dset_same {α : Type} (d : Dict α) (k : String) (v v' : α) :
    dset (dset d k v) k v' = dset d k v' := by
  induction d with
  | nil => simp [dset]
  | cons hd tl ih =>
      obtain ⟨k', w⟩ := hd
      by_cases h : k' = k <;> simp [dset, h, ih]

theorem dkeys_nodup_dset {α : Type} (d : Dict α) (k : String) (v : α)
    (h : (dkeys d).Nodup) : (dkeys (dset d k v)).Nodup := by
  by_cases hm : (dget? d k).isSome
  · rw [dkeys_dset_of_mem d k v hm]; exact h
  · rw [dkeys_dset_of_not_mem d k v (Option.not_isSome_iff_eq_none.mp hm)]
    simp only [List.nodup_append, List.nodup_cons, List.nodup_nil]
    refine ⟨h, by simp, ?_⟩
    intro a ha hb
    simp at hb
    subst hb
    rw [← dget?_isSome_iff_mem_dkeys] at ha
    exact hm ha

/-- C8: malformed hit lines are a hard failure.  For every input line other
than the skip sentinel: a line with too few tab-separated fields to supply
positions 0, 2, 5 and 7, or whose field at position 5 is not parseable as a
float, or whose field at position 7 is not parseable as an integer, makes
the hit parser return an error (aborting the run) rather than coercing the
values or skipping the line. -/
theorem C8_malformed_lines_hard_failure (line : String) (hs : line ≠ "not assigned") :
    ((splitOnChar '\t' line.toList).length < 8 → ∃ e, parseLine line = .error e) ∧
    (∀ f5, (splitOnChar '\t' line.toList)[5]? = some f5 → pyFloat? f5 = none →
      ∃ e, parseLine line = .error e) ∧
    (∀ f7, (splitOnChar '\t' line.toList)[7]? = some f7 → pyInt? f7 = none →
      ∃ e, parseLine line = .error e) := by
  have hP : parseLine line =
      (match (splitOnChar '\t' line.toList)[2]? with
       | none => .error "IndexError"
       | some tax =>
         match (splitOnChar '\t' line.toList)[5]? with
         | none => .error "IndexError"
         | some f5 =>
           match pyFloat? f5 with
           | none => .error "ValueError"
           | some pid =>
             match (splitOnChar '\t' line.toList)[7]? with
             | none => .error "IndexError"
             | some f7 =>
               match pyInt? f7 with
               | none => .error "ValueError"
               | some qc =>
                 .ok (some ⟨⟨(splitOnChar ';' ((splitOnChar '\t' line.toList).headD [])).headD []⟩,
                   ⟨tax⟩, pid, qc⟩)) := by
    simp only [parseLine, if_neg hs]
  refine ⟨?_, ?_, ?_⟩
  · intro hlen
    rcases h2 : (splitOnChar '\t' line.toList)[2]? with _ | tax
    · exact ⟨"IndexError", by simp only [hP, h2]⟩
    rcases h5 : (splitOnChar '\t' line.toList)[5]? with _ | f5
    · exact ⟨"IndexError", by simp only [hP, h2, h5]⟩
    rcases hf : pyFloat? f5 with _ | pid
    · exact ⟨"ValueError", by simp only [hP, h2, h5, hf]⟩
    have h7 : (splitOnChar '\t' line.toList)[7]? = none := by
      apply List.getElem?_eq_none
      omega
    exact ⟨"IndexError", by simp only [hP, h2, h5, hf, h7]⟩
  · intro f5 h5 hf
    rcases h2 : (splitOnChar '\t' line.toList)[2]? with _ | tax
    · exact ⟨"IndexError", by simp only [hP, h2]⟩
    exact ⟨"ValueError", by simp only [hP, h2, h5, hf]⟩
  · intro f7 h7 hi
    rcases h2 : (splitOnChar '\t' line.toList)[2]? with _ | tax
    · exact ⟨"IndexError", by simp only [hP, h2]⟩
    rcases h5 : (splitOnChar '\t' line.toList)[5]? with _ | f5
    · exact ⟨"IndexError", by simp only [hP, h2, h5]⟩
    rcases hf : pyFloat? f5 with _ | pid
    · exact ⟨"ValueError", by simp only [hP, h2, h5, hf]⟩
    exact ⟨"ValueError", by simp only [hP, h2, h5, hf, h7, hi]⟩

/-- Witness for C8: a three-field line, a line with a non-numeric identity
field, and a line with a non-integer coverage field each make the parser
fail. -/
theorem C8_witness :
    (∃ e, parseLine "a\tb\tc" = .error e) ∧
    (∃ e, parseLine "q\tx\tT\ty\tz\tabc\tw\t100" = .error e) ∧
    (∃ e, parseLine "q\tx\tT\ty\tz\t98.5\tw\t3.5" = .error e) := by
  refine ⟨?_, ?_, ?_⟩
  · exact (C8_malformed_lines_hard_failure "a\tb\tc" (by decide)).1 (by decide)
  · exact (C8_malformed_lines_hard_failure "q\tx\tT\ty\tz\tabc\tw\t100" (by decide)).2.1
      "abc".toList (by decide) (by decide)
  · exact (C8_malformed_lines_hard_failure "q\tx\tT\ty\tz\t98.5\tw\t3.5" (by decide)).2.2
      "3.5".toList (by decide) (by decide)

/-- C2: the hit-parser tie-break fold, per streamed record.  The first
record for a query seeds the best values and a singleton candidate set; an
equal-identity equal-coverage record whose candidate is new and not the
null-taxon sentinel appends it; a record strictly better on one metric
while tying the other, or strictly better on both, replaces the candidate
set with the singleton new candidate and updates the best values; every
other record for a known query leaves the state unchanged.  blastFold
applies blastStep to the records in input order. -/
theorem C2_tie_break_policy (st : BlastState) (h : Hit) :
    (dget? st.blast h.seq_id = none → dget? st.species h.seq_id = none →
      dget? (blastStep st h).blast h.seq_id = some (h.pident, h.qcov) ∧
      dget? (blastStep st h).species h.seq_id = some [h.tax_id]) ∧
    (∀ bp bq cur, dget? st.blast h.seq_id = some (bp, bq) →
      dget? st.species h.seq_id = some cur →
      h.pident = bp → h.qcov = bq → h.tax_id ∉ cur → h.tax_id ≠ "N/A" →
      dget? (blastStep st h).blast h.seq_id = some (bp, bq) ∧
      dget? (blastStep st h).species h.seq_id = some (cur ++ [h.tax_id])) ∧
    (∀ bp bq, dget? st.blast h.seq_id = some (bp, bq) →
      ((bp < h.pident ∧ h.qcov = bq) ∨ (h.pident = bp ∧ bq < h.qcov) ∨
        (bp < h.pident ∧ bq < h.qcov)) →
      dget? (blastStep st h).blast h.seq_id = some (h.pident, h.qcov) ∧
      dget? (blastStep st h).species h.seq_id = some [h.tax_id]) ∧
    (∀ bp bq, dget? st.blast h.seq_id = some (bp, bq) →
      ¬(h.pident = bp ∧ h.qcov = bq ∧ h.tax_id ∉ dgetD st.species h.seq_id [] ∧
          h.tax_id ≠ "N/A") →
      ¬(bp < h.pident ∧ h.qcov = bq) → ¬(h.pident = bp ∧ bq < h.qcov) →
      ¬(bp < h.pident ∧ bq < h.qcov) →
      blastStep st h = st) := by
  refine ⟨?_, ?_, ?_, ?_⟩
  · intro hb hsc
    have hstep : blastStep st h =
        { blast := dset st.blast h.seq_id (h.pident, h.qcov)
          species := dset st.species h.seq_id (dgetD st.species h.seq_id [] ++ [h.tax_id])
          uniq := addUniq st.uniq h.tax_id } := by
      simp only [blastStep, hb]
    rw [hstep]
    refine ⟨dget?_dset_self _ _ _, ?_⟩
    rw [dget?_dset_self]
    simp [dgetD, hsc]
  · intro bp bq cur hb hsc heq1 heq2 hmem hna
    have hcur : dgetD st.species h.seq_id [] = cur := by simp [dgetD, hsc]
    have hstep : blastStep st h =
        { st with
            species := dset st.species h.seq_id (cur ++ [h.tax_id])
            uniq := addUniq st.uniq h.tax_id } := by
      simp only [blastStep, hb, hcur]
      rw [if_pos ⟨heq1, heq2, hmem, hna⟩]
    rw [hstep]
    exact ⟨hb, dget?_dset_self _ _ _⟩
  · intro bp bq hb hdisj
    have hstep : blastStep st h =
        { blast := dset st.blast h.seq_id (h.pident, h.qcov)
          species := dset st.species h.seq_id [h.tax_id]
          uniq := addUniq st.uniq h.tax_id } := by
      simp only [blastStep, hb]
      rcases hdisj with d1 | d2 | d3
      · rw [if_neg (by rintro ⟨h1, -, -, -⟩; exact ne_of_gt d1.1 h1),
          if_pos d1]
      · rw [if_neg (by rintro ⟨-, h2, -, -⟩; exact ne_of_gt d2.2 h2),
          if_neg (by rintro ⟨h1, -⟩; rw [d2.1] at h1; exact lt_irrefl bp h1),
          if_pos d2]
      · rw [if_neg (by rintro ⟨h1, -, -, -⟩; exact ne_of_gt d3.1 h1),
          if_neg (by rintro ⟨-, h2⟩; rw [h2] at d3; exact lt_irrefl bq d3.2),
          if_neg (by rintro ⟨h1, -⟩; rw [h1] at d3; exact lt_irrefl bp d3.1),
          if_pos d3]
    rw [hstep]
    exact ⟨dget?_dset_self _ _ _, dget?_dset_self _ _ _⟩
  · intro bp bq hb hn1 hn2 hn3 hn4
    simp only [blastStep, hb]
    rw [if_neg hn1, if_neg hn2, if_neg hn3, if_neg hn4]

/-- Witness for C2: on a concrete state holding best (98, 100) for query Q1
with candidate list containing only T1, a tying record for T2 appends, a
coverage-improving record for T3 replaces, and a worse record leaves the
state unchanged. -/
theorem C2_witness :
    (dget? (blastStep ⟨[("Q1", ((98 : ℚ), (100 : Int)))], [("Q1", ["T1"])], ["T1"]⟩
        ⟨"Q1", "T2", 98, 100⟩).species "Q1" = some ["T1", "T2"]) ∧
    (dget? (blastStep ⟨[("Q1", ((98 : ℚ), (100 : Int)))], [("Q1", ["T1"])], ["T1"]⟩
        ⟨"Q1", "T3", 98, 101⟩).species "Q1" = some ["T3"]) ∧
    (blastStep ⟨[("Q1", ((98 : ℚ), (100 : Int)))], [("Q1", ["T1"])], ["T1"]⟩
        ⟨"Q1", "T4", 97, 100⟩ =
      ⟨[("Q1", ((98 : ℚ), (100 : Int)))], [("Q1", ["T1"])], ["T1"]⟩) := by
  refine ⟨?_, ?_, ?_⟩
  · exact ((C2_tie_break_policy _ _).2.1 98 100 ["T1"] (by decide) (by decide)
      (by decide) (by decide) (by decide) (by decide)).2
  · exact ((C2_tie_break_policy _ _).2.2.1 98 100 (by decide)
      (Or.inr (Or.inl ⟨by decide, by decide⟩))).2
  · exact (C2_tie_break_policy _ _).2.2.2 98 100 (by decide) (by decide) (by decide)
      (by decide) (by decide)

theorem mem_addUniq_self (u : List String) (t : String) : t ∈ addUniq u t := by
  by_cases ht : t ∈ u <;> simp [addUniq, ht]

theorem mem_addUniq_of_mem (u : List String) (t x : String) (hx : x ∈ u) :
    x ∈ addUniq u t := by
  by_cases ht : t ∈ u <;> simp [addUniq, ht, hx]

theorem addUniq_nodup (u : List String) (t : String) (h : u.Nodup) :
    (addUniq u t).Nodup := by
  by_cases ht : t ∈ u
  · simp [addUniq, ht, h]
  · simp only [addUniq, ht, if_neg]
    refine List.nodup_append.mpr ⟨h, by simp, ?_⟩
    intro a ha hb2
    simp at hb2
    subst hb2
    exact ht ha

theorem addUniq_eq_append (u : List String) (t : String) :
    ∃ s, addUniq u t = u ++ s := by
  by_cases ht : t ∈ u
  · exact ⟨[], by simp [addUniq, ht]⟩
  · exact ⟨[t], by simp [addUniq, ht]⟩

/-- Every branch of blastStep either keeps the state or rewrites the query's
candidate list with elements drawn from the old list and the new taxon while
extending uniq with addUniq. -/
theorem blastStep_shape (st : BlastState) (h : Hit) :
    blastStep st h = st ∨
    ∃ bl v, blastStep st h = ⟨bl, dset st.species h.seq_id v, addUniq st.uniq h.tax_id⟩ ∧
      (∀ tx ∈ v, tx ∈ dgetD st.species h.seq_id [] ∨ tx = h.tax_id) ∧
      (bl = dset st.blast h.seq_id (h.pident, h.qcov) ∨
        (bl = st.blast ∧ (dget? st.blast h.seq_id).isSome)) := by
  rcases hb : dget? st.blast h.seq_id with _ | ⟨bp, bq⟩
  · refine Or.inr ⟨dset st.blast h.seq_id (h.pident, h.qcov),
      dgetD st.species h.seq_id [] ++ [h.tax_id], by simp only [blastStep, hb], ?_,
      Or.inl rfl⟩
    intro tx htx
    rcases List.mem_append.mp htx with hx | hx
    · exact Or.inl hx
    · simp at hx; exact Or.inr hx
  · simp only [blastStep, hb]
    split_ifs
    · refine Or.inr ⟨_, _, rfl, ?_, Or.inr ⟨rfl, by simp [hb]⟩⟩
      intro tx htx
      rcases List.mem_append.mp htx with hx | hx
      · exact Or.inl hx
      · simp at hx; exact Or.inr hx
    · refine Or.inr ⟨_, _, rfl, ?_, Or.inl rfl⟩
      intro tx htx
      simp at htx; exact Or.inr htx
    · refine Or.inr ⟨_, _, rfl, ?_, Or.inl rfl⟩
      intro tx htx
      simp at htx; exact Or.inr htx
    · refine Or.inr ⟨_, _, rfl, ?_, Or.inl rfl⟩
      intro tx htx
      simp at htx; exact Or.inr htx
    · exact Or.inl rfl

theorem blastStep_uniq_append (st : BlastState) (h : Hit) :
    ∃ s, (blastStep st h).uniq = st.uniq ++ s := by
  rcases blastStep_shape st h with h1 | ⟨bl, v, h1, -, -⟩
  · exact ⟨[], by simp [h1]⟩
  · rw [h1]
    exact addUniq_eq_append st.uniq h.tax_id

theorem foldl_blastStep_uniq_append :
    ∀ (l : List Hit) (st : BlastState), ∃ s, (l.foldl blastStep st).uniq = st.uniq ++ s
  | [], st => ⟨[], by simp⟩
  | h :: l, st => by
    obtain ⟨s1, h1⟩ := blastStep_uniq_append st h
    obtain ⟨s2, h2⟩ := foldl_blastStep_uniq_append l (blastStep st h)
    exact ⟨s1 ++ s2, by rw [List.foldl_cons, h2, h1, List.append_assoc]⟩

theorem blastStep_preserves_uniq_inv (st : BlastState) (h : Hit)
    (h1 : st.uniq.Nodup)
    (h2 : ∀ q lx, dget? st.species q = some lx → ∀ tx ∈ lx, tx ∈ st.uniq) :
    (blastStep st h).uniq.Nodup ∧
    ∀ q lx, dget? (blastStep st h).species q = some lx →
      ∀ tx ∈ lx, tx ∈ (blastStep st h).uniq := by
  rcases blastStep_shape st h with hsh | ⟨bl, v, hsh, hv, -⟩
  · rw [hsh]; exact ⟨h1, h2⟩
  · rw [hsh]
    refine ⟨addUniq_nodup _ _ h1, ?_⟩
    intro q lx hl tx htx
    by_cases hq : h.seq_id = q
    · subst hq
      rw [dget?_dset_self] at hl
      obtain rfl := Option.some.inj hl
      rcases hv tx htx with hx | hx
      · rcases hsp : dget? st.species h.seq_id with _ | cur
        · rw [dgetD, hsp] at hx; simp at hx
        · rw [dgetD, hsp] at hx
          exact mem_addUniq_of_mem _ _ _ (h2 _ _ hsp tx hx)
      · subst hx; exact mem_addUniq_self _ _
    · rw [dget?_dset_ne _ _ _ _ hq] at hl
      exact mem_addUniq_of_mem _ _ _ (h2 _ _ hl tx htx)

theorem blastFold_uniq_inv :
    ∀ (l : List Hit) (st : BlastState), st.uniq.Nodup →
    (∀ q lx, dget? st.species q = some lx → ∀ tx ∈ lx, tx ∈ st.uniq) →
    (l.foldl blastStep st).uniq.Nodup ∧
    ∀ q lx, dget? (l.foldl blastStep st).species q = some lx →
      ∀ tx ∈ lx, tx ∈ (l.foldl blastStep st).uniq
  | [], st, h1, h2 => ⟨h1, h2⟩
  | h :: l, st, h1, h2 => by
    rw [List.foldl_cons]
    obtain ⟨h1', h2'⟩ := blastStep_preserves_uniq_inv st h h1 h2
    exact blastFold_uniq_inv l (blastStep st h) h1' h2'

/-- C10: the unique-taxon list of the hit parser contains each taxon at most
once, grows append-only along the pass (a taxon once admitted keeps its
position and is never removed, so the list is ordered by first addition),
and is a superset of every per-query candidate list, in particular of the
union of the final candidate sets. -/
theorem C10_uniq_species_list_invariant (hits : List Hit) :
    (blastFold hits).uniq.Nodup ∧
    (∀ pre suf, ∃ s, (blastFold (pre ++ suf)).uniq = (blastFold pre).uniq ++ s) ∧
    (∀ q l, dget? (blastFold hits).species q = some l →
      ∀ tx ∈ l, tx ∈ (blastFold hits).uniq) := by
  have base := blastFold_uniq_inv hits emptyBlastState (by simp [emptyBlastState])
    (by intro q lx hl; rw [emptyBlastState] at hl; simp [dget?] at hl)
  refine ⟨base.1, ?_, base.2⟩
  intro pre suf
  unfold blastFold
  rw [List.foldl_append]
  exact foldl_blastStep_uniq_append suf (pre.foldl blastStep emptyBlastState)

/-- Witness for C10 at a concrete record stream. -/
theorem C10_witness :
    (blastFold demoHits).uniq.Nodup ∧ "SpA" ∈ (blastFold demoHits).uniq := by
  refine ⟨(C10_uniq_species_list_invariant demoHits).1, ?_⟩
  exact (C10_uniq_species_list_invariant demoHits).2.2 "Z2" ["SpA"] (by decide)
    "SpA" (by decide)

/-- A value-mapped dict looks up to the mapped value. -/
theorem dget?_map_val {α β : Type} (f : α → β) :
    ∀ (d : Dict α) (k : String),
    dget? (d.map (fun kv => (kv.1, f kv.2))) k = (dget? d k).map f
  | [], _ => rfl
  | (k', v) :: d, k => by
    by_cases h : k' = k <;> simp [dget?, h, dget?_map_val f d k]

/-- The blast and species dicts of the hit parser share their key set. -/
theorem blastStep_sync (st : BlastState) (h : Hit)
    (hs : ∀ k, (dget? st.blast k).isSome ↔ (dget? st.species k).isSome) :
    ∀ k, (dget? (blastStep st h).blast k).isSome ↔
      (dget? (blastStep st h).species k).isSome := by
  rcases blastStep_shape st h with hsh | ⟨bl, v, hsh, -, hbl⟩
  · rw [hsh]; exact hs
  · rw [hsh]
    intro k
    by_cases hq : h.seq_id = k
    · subst hq
      constructor
      · intro; rw [dget?_dset_self]; rfl
      · intro
        rcases hbl with rfl | ⟨rfl, hbs⟩
        · rw [dget?_dset_self]; rfl
        · exact hbs
    · rw [dget?_dset_ne _ _ _ _ hq]
      rcases hbl with rfl | ⟨rfl, hbs⟩
      · rw [dget?_dset_ne _ _ _ _ hq]; exact hs k
      · exact hs k

theorem blastFold_sync :
    ∀ (l : List Hit) (st : BlastState),
    (∀ k, (dget? st.blast k).isSome ↔ (dget? st.species k).isSome) →
    ∀ k, (dget? (l.foldl blastStep st).blast k).isSome ↔
      (dget? (l.foldl blastStep st).species k).isSome
  | [], _, hs => hs
  | h :: l, st, hs => by
    rw [List.foldl_cons]
    exact blastFold_sync l (blastStep st h) (blastStep_sync st h hs)

theorem fillStep_preserves_entry (fs : FilledState) (item k : String)
    (v : Option (ℚ × Int)) (hk : dget? fs.blast k = some v) :
    dget? (fillStep fs item).blast k = some v ∧
    dget? (fillStep fs item).species k = dget? fs.species k := by
  by_cases hi : (dget? fs.blast item).isSome
  · simp [fillStep, hi, hk]
  · have hik : item ≠ k := by
      intro he; subst he; rw [hk] at hi; simp at hi
    simp only [fillStep, hi, if_false, Bool.false_eq_true]
    exact ⟨by rw [dget?_dset_ne _ _ _ _ hik]; exact hk,
      by rw [dget?_dset_ne _ _ _ _ hik]⟩

theorem fillFold_preserves_entry :
    ∀ (l : List String) (fs : FilledState) (k : String) (v : Option (ℚ × Int)),
    dget? fs.blast k = some v →
    dget? (l.foldl fillStep fs).blast k = some v ∧
    dget? (l.foldl fillStep fs).species k = dget? fs.species k
  | [], _, _, _, hk => ⟨hk, rfl⟩
  | a :: l, fs, k, v, hk => by
    rw [List.foldl_cons]
    obtain ⟨h1, h2⟩ := fillStep_preserves_entry fs a k v hk
    obtain ⟨h1', h2'⟩ := fillFold_preserves_entry l (fillStep fs a) k v h1
    exact ⟨h1', h2'.trans h2⟩

theorem fillFold_mem :
    ∀ (l : List String) (fs : FilledState) (z : String), z ∈ l →
    (dget? (l.foldl fillStep fs).blast z).isSome
  | a :: l, fs, z, hz => by
    rw [List.foldl_cons]
    rcases List.mem_cons.mp hz with rfl | hz'
    · have h1 : ∃ v, dget? (fillStep fs z).blast z = some v := by
        by_cases hi : (dget? fs.blast z).isSome
        · obtain ⟨v, hv⟩ := Option.isSome_iff_exists.mp hi
          exact ⟨v, by simp [fillStep, hi, hv]⟩
        · refine ⟨none, ?_⟩
          simp only [fillStep, hi, if_false, Bool.false_eq_true]
          exact dget?_dset_self _ _ _
      obtain ⟨v, hv⟩ := h1
      rw [(fillFold_preserves_entry l (fillStep fs z) z v hv).1]; rfl
    · exact fillFold_mem l (fillStep fs a) z hz'

theorem fillFold_fills :
    ∀ (l : List String) (fs : FilledState) (z : String), z ∈ l →
    dget? fs.blast z = none → dget? fs.species z = none →
    dget? (l.foldl fillStep fs).blast z = some none ∧
    dget? (l.foldl fillStep fs).species z = some ["NA"]
  | a :: l, fs, z, hz, hb, hsp => by
    rw [List.foldl_cons]
    by_cases ha : a = z
    · subst ha
      have hni : ¬(dget? fs.blast a).isSome = true := by rw [hb]; simp
      have hstep : fillStep fs a =
          ⟨dset fs.blast a none,
            dset fs.species a (dgetD fs.species a [] ++ ["NA"])⟩ := by
        simp only [fillStep, hni, if_false, Bool.false_eq_true]
      have h1 : dget? (fillStep fs a).blast a = some none := by
        rw [hstep]; exact dget?_dset_self _ _ _
      have h2 : dget? (fillStep fs a).species a = some ["NA"] := by
        rw [hstep]
        show dget? (dset fs.species a (dgetD fs.species a [] ++ ["NA"])) a = some ["NA"]
        rw [dget?_dset_self]
        simp [dgetD, hsp]
      obtain ⟨h1', h2'⟩ := fillFold_preserves_entry l (fillStep fs a) a none h1
      exact ⟨h1', h2'.trans h2⟩
    · have hz' : z ∈ l := by
        rcases List.mem_cons.mp hz with rfl | hz'
        · exact absurd rfl ha
        · exact hz'
      by_cases hi : (dget? fs.blast a).isSome
      · have : fillStep fs a = fs := by simp [fillStep, hi]
        rw [this]
        exact fillFold_fills l fs z hz' hb hsp
      · have hstep : fillStep fs a =
            ⟨dset fs.blast a none,
              dset fs.species a (dgetD fs.species a [] ++ ["NA"])⟩ := by
          simp only [fillStep, hi, if_false, Bool.false_eq_true]
        have hb' : dget? (fillStep fs a).blast z = none := by
          rw [hstep]
          show dget? (dset fs.blast a none) z = none
          rw [dget?_dset_ne _ _ _ _ ha]; exact hb
        have hsp' : dget? (fillStep fs a).species z = none := by
          rw [hstep]
          show dget? (dset fs.species a (dgetD fs.species a [] ++ ["NA"])) z = none
          rw [dget?_dset_ne _ _ _ _ ha]; exact hsp
        exact fillFold_fills l (fillStep fs a) z hz' hb' hsp'

/-- C7: back-fill reconciliation.  When the blast and species dicts share
their key set (which holds for every output of the hit parser), after
fill_out_blast_dict every universe id is a key of the best-hit dict; an id
absent before the step now carries the NA identity/coverage pair and the
single sentinel candidate 'NA'; and every entry already present keeps its
identity, coverage and candidate list unchanged. -/
theorem C7_back_fill_reconciliation (zotu : List String) (st : BlastState)
    (hsync : ∀ k, (dget? st.blast k).isSome ↔ (dget? st.species k).isSome) :
    (∀ z ∈ zotu, (dget? (fill_out_blast_dict zotu st).blast z).isSome) ∧
    (∀ z ∈ zotu, dget? st.blast z = none →
      dget? (fill_out_blast_dict zotu st).blast z = some none ∧
      dget? (fill_out_blast_dict zotu st).species z = some ["NA"]) ∧
    (∀ k v, dget? st.blast k = some v →
      dget? (fill_out_blast_dict zotu st).blast k = some (some v) ∧
      dget? (fill_out_blast_dict zotu st).species k = dget? st.species k) := by
  have hinit : ∀ k, dget? (st.blast.map (fun kv => (kv.1, some kv.2))) k =
      (dget? st.blast k).map some := fun k => dget?_map_val some st.blast k
  refine ⟨?_, ?_, ?_⟩
  · intro z hz
    exact fillFold_mem zotu _ z hz
  · intro z hz hb
    have hsp : dget? st.species z = none := by
      rcases hspc : dget? st.species z with _ | cur
      · rfl
      · exfalso
        have := (hsync z).mpr (by rw [hspc]; rfl)
        rw [hb] at this; simp at this
    refine fillFold_fills zotu _ z hz ?_ hsp
    rw [hinit z, hb]; rfl
  · intro k v hk
    exact fillFold_preserves_entry zotu _ k (some v) (by rw [hinit k, hk]; rfl)

/-- Witness for C7 at a concrete universe and parser state: the missing
cluster Z1 is back-filled with the NA pair and the single 'NA' candidate,
and the existing cluster Z2 keeps its entry. -/
theorem C7_witness :
    (dget? (fill_out_blast_dict demoZotu (blastFold demoHits)).blast "Z1" = some none) ∧
    (dget? (fill_out_blast_dict demoZotu (blastFold demoHits)).species "Z1" = some ["NA"]) ∧
    (dget? (fill_out_blast_dict demoZotu (blastFold demoHits)).blast "Z2" =
      some (some (98, 100))) := by
  have H := C7_back_fill_reconciliation demoZotu (blastFold demoHits)
    (blastFold_sync demoHits emptyBlastState
      (by intro k; simp [emptyBlastState, dget?]))
  exact ⟨(H.2.1 "Z1" (by decide) (by decide)).1,
    (H.2.1 "Z1" (by decide) (by decide)).2,
    (H.2.2 "Z2" (98, 100) (by decide)).1⟩

theorem filterFold_eq :
    ∀ (ranks : List String) (raw : List Entry) (acc : List String),
    ranks.foldl (fun a r => a ++ projectRank raw r) acc =
      acc ++ (ranks.map (projectRank raw)).flatten
  | [], raw, acc => by simp
  | r :: ranks, raw, acc => by
    rw [List.foldl_cons, filterFold_eq ranks raw (acc ++ projectRank raw r)]
    simp

theorem projectRank_eq_of_le_one (raw : List Entry) (r : String)
    (h : ((raw.filter (fun e => e.1 = r)).map (fun e => e.2.2)).length ≤ 1) :
    projectRank raw r =
      [((raw.filter (fun e => e.1 = r)).map (fun e => e.2.2)).headD "NA"] := by
  rcases hms : (raw.filter (fun e => e.1 = r)).map (fun e => e.2.2) with _ | ⟨x, xs⟩
  · simp [projectRank, hms]
  · have hxs : xs = [] := by
      rw [hms] at h
      simpa using h
    subst hxs
    simp [projectRank, hms]

theorem join_map_eq_map :
    ∀ (l : List String) (f : String → List String) (g : String → String),
    (∀ r ∈ l, f r = [g r]) → (l.map f).flatten = l.map g
  | [], _, _, _ => rfl
  | r :: l, f, g, h => by
    simp only [List.map_cons, List.flatten_cons]
    rw [h r (by simp), join_map_eq_map l f g (fun x hx => h x (by simp [hx]))]
    rfl

/-- Counterexample to C3: a raw lineage with a duplicated 'genus' rank label
projects to 8 entries — both duplicate matches are emitted, so the result is
neither of canonical length nor first-match-only. -/
theorem C3_counterexample :
    filterLineageOne
        [("kingdom", "1", "K"), ("genus", "3", "G1"), ("genus", "4", "G2"),
          ("species", "5", "S")] =
      ["K", "NA", "NA", "NA", "NA", "G1", "G2", "S"] ∧
    (8 : Nat) ≠ ranks_needed.length := ⟨rfl, by decide⟩

/-- C3 amended: the projection scans the raw lineage per canonical rank and
emits the name of every matching raw entry in walk order ('NA' when none
matches), so each canonical-rank raw entry's name reaches the output; only
when no canonical rank label occurs more than once does the projected
lineage have exactly the canonical length, each position carrying the sole
(hence first) match or the unknown marker. -/
theorem C3_amended_rank_projection (raw : List Entry)
    (hdup : ∀ r ∈ ranks_needed, (raw.filter (fun e => e.1 = r)).length ≤ 1) :
    (∀ e ∈ raw, e.1 ∈ ranks_needed → e.2.2 ∈ filterLineageOne raw) ∧
    filterLineageOne raw =
      ranks_needed.map (fun r =>
        ((raw.filter (fun e => e.1 = r)).map (fun e => e.2.2)).headD "NA") ∧
    (filterLineageOne raw).length = ranks_needed.length := by
  have hfl : filterLineageOne raw = (ranks_needed.map (projectRank raw)).flatten := by
    unfold filterLineageOne
    rw [filterFold_eq]
    simp
  have hmap : filterLineageOne raw =
      ranks_needed.map (fun r =>
        ((raw.filter (fun e => e.1 = r)).map (fun e => e.2.2)).headD "NA") := by
    rw [hfl]
    exact join_map_eq_map ranks_needed _ _
      (fun r hr => projectRank_eq_of_le_one raw r (by simpa using hdup r hr))
  refine ⟨?_, hmap, by rw [hmap]; simp⟩
  intro e he hr
  rw [hfl, List.mem_flatten]
  refine ⟨projectRank raw e.1, List.mem_map_of_mem _ hr, ?_⟩
  have hin : e.2.2 ∈ (raw.filter (fun x => x.1 = e.1)).map (fun x => x.2.2) :=
    List.mem_map_of_mem _ (List.mem_filter.mpr ⟨he, by simp⟩)
  have hne : (raw.filter (fun x => x.1 = e.1)).map (fun x => x.2.2) ≠ [] :=
    List.ne_nil_of_mem hin
  simpa [projectRank, hne] using hin

/-- Witness for C3 on a duplicate-free raw lineage that skips five ranks. -/
theorem C3_witness :
    filterLineageOne [("kingdom", "1", "K"), ("clade", "2", "C"), ("species", "5", "S")] =
      ["K", "NA", "NA", "NA", "NA", "NA", "S"] ∧
    (filterLineageOne
        [("kingdom", "1", "K"), ("clade", "2", "C"), ("species", "5", "S")]).length =
      ranks_needed.length := by
  have H := C3_amended_rank_projection
    [("kingdom", "1", "K"), ("clade", "2", "C"), ("species", "5", "S")] (by decide)
  exact ⟨H.2.1, H.2.2⟩

theorem lineageWalk_succ (nodes : Dict (String × String)) (names : Dict String)
    (x : String) (fuel : Nat) :
    lineageWalk nodes names x (fuel + 1) =
      match dget? nodes x with
      | none => some (.error "KeyError")
      | some (rank, up) =>
        if x = up then some (.ok [])
        else
          match dget? names x with
          | none => some (.error "KeyError")
          | some nm =>
            match lineageWalk nodes names up fuel with
            | none => none
            | some (.error e) => some (.error e)
            | some (.ok l) => some (.ok ((rank, x, nm) :: l)) := rfl

/-- Counterexample to C6: on a two-node parent cycle with every lookup
defined, the ancestor walk never finishes for any amount of fuel — the
Python while loop runs forever instead of failing with a malformed-taxonomy
error. -/
theorem C6_counterexample : walkDiverges cycNodes cycNames "1" := by
  have key : ∀ fuel, lineageWalk cycNodes cycNames "1" fuel = none ∧
      lineageWalk cycNodes cycNames "2" fuel = none := by
    intro fuel
    induction fuel with
    | zero => exact ⟨rfl, rfl⟩
    | succ n ih =>
      have e1 : dget? cycNodes "1" = some ("genus", "2") := rfl
      have e2 : dget? cycNodes "2" = some ("family", "1") := rfl
      have f1 : dget? cycNames "1" = some "A" := rfl
      have f2 : dget? cycNames "2" = some "B" := rfl
      constructor
      · simp [lineageWalk, e1, f1, ih.2]
      · simp [lineageWalk, e2, f2, ih.1]
  exact fun fuel => (key fuel).1

/-- C6 amended: the walk stops exactly at a self-parenting node, recording
one (rank, identifier, name) entry per non-root node visited, and the
result is stable under extra fuel; a dangling parent reference is the
uncaught KeyError hard failure; but a chain that never reaches a
self-parenting node (a cycle) makes the walk run forever — no malformed-
taxonomy failure is reported. -/
theorem C6_amended_walk (nodes : Dict (String × String)) (names : Dict String) :
    (∀ x r, dget? nodes x = some (r, x) →
      ∀ fuel, lineageWalk nodes names x (fuel + 1) = some (.ok [])) ∧
    (∀ x r p nm l fuel, dget? nodes x = some (r, p) → x ≠ p →
      dget? names x = some nm → lineageWalk nodes names p fuel = some (.ok l) →
      lineageWalk nodes names x (fuel + 1) = some (.ok ((r, x, nm) :: l))) ∧
    (∀ fuel x res, lineageWalk nodes names x fuel = some res →
      lineageWalk nodes names x (fuel + 1) = some res) ∧
    (∀ x fuel, dget? nodes x = none →
      lineageWalk nodes names x (fuel + 1) = some (.error "KeyError")) ∧
    (∀ x, (∀ n, ∃ y r p, pstepN nodes n x = some y ∧ dget? nodes y = some (r, p) ∧
        y ≠ p ∧ (dget? names y).isSome) →
      walkDiverges nodes names x) := by
  refine ⟨?_, ?_, ?_, ?_, ?_⟩
  · intro x r hx fuel
    simp [lineageWalk, hx]
  · intro x r p nm l fuel hx hxp hnm hw
    simp [lineageWalk, hx, hxp, hnm, hw]
  · intro fuel
    induction fuel with
    | zero => intro x res hres; simp [lineageWalk] at hres
    | succ n ih =>
      intro x res hres
      rw [lineageWalk_succ] at hres ⊢
      rcases hx : dget? nodes x with _ | ⟨r, p⟩
      · simp only [hx] at hres ⊢
        exact hres
      · simp only [hx] at hres ⊢
        by_cases hxp : x = p
        · simp only [if_pos hxp] at hres ⊢
          exact hres
        · simp only [if_neg hxp] at hres ⊢
          rcases hnm : dget? names x with _ | nm
          · simp only [hnm] at hres ⊢
            exact hres
          · simp only [hnm] at hres ⊢
            rcases hw : lineageWalk nodes names p n with _ | res'
            · rw [hw] at hres
              simp at hres
            · rw [hw] at hres
              rw [ih p res' hw]
              exact hres
  · intro x fuel hx
    simp [lineageWalk, hx]
  · intro x hchain
    intro fuel
    induction fuel generalizing x with
    | zero => rfl
    | succ n ih =>
      obtain ⟨y, r, p, hy, hnode, hyp, hnm⟩ := hchain 0
      have hyx : y = x := by
        have := hy
        simp [pstepN] at this
        exact this.symm
      subst hyx
      obtain ⟨nm, hnm'⟩ := Option.isSome_iff_exists.mp hnm
      have hstep : ∀ n, ∃ y' r' p', pstepN nodes n p = some y' ∧
          dget? nodes y' = some (r', p') ∧ y' ≠ p' ∧ (dget? names y').isSome := by
        intro m
        have := hchain (m + 1)
        simpa [pstepN, pstep, hnode] using this
      have hrec := ih p hstep
      simp [lineageWalk, hnode, hyp, hnm', hrec]

/-- Witness for C6 on the concrete three-node taxonomy: the walk from the
leaf terminates with one entry per non-root ancestor, and a dangling
identifier raises KeyError. -/
theorem C6_witness :
    lineageWalk demoNodes demoNames "3" 3 = some (.ok
      [("species", "3", "S"), ("genus", "2", "G")]) ∧
    lineageWalk demoNodes demoNames "9" 1 = some (.error "KeyError") := by
  constructor
  · exact (C6_amended_walk demoNodes demoNames).2.1 "3" "species" "2" "S"
      [("genus", "2", "G")] 2 (by decide) (by decide) (by decide)
      ((C6_amended_walk demoNodes demoNames).2.1 "2" "genus" "1" "G" [] 1
        (by decide) (by decide) (by decide)
        ((C6_amended_walk demoNodes demoNames).1 "1" "root" (by decide) 0))
  · exact (C6_amended_walk demoNodes demoNames).2.2.2.1 "9" 0 (by decide)

theorem narrowOk_length (m l : List String) (h : m.length ≤ l.length) :
    (narrowOk m l).length = m.length := by
  simp only [narrowOk, List.length_zipWith]
  omega

theorem narrowOk_getD (m l : List String) (i : Nat) (hi : i < m.length)
    (hl : m.length ≤ l.length) :
    (narrowOk m l).getD i "" =
      (if m.getD i "" = l.getD i "" then m.getD i "" else "NA") := by
  induction m generalizing l i with
  | nil => simp at hi
  | cons a m ih =>
    rcases l with _ | ⟨b, l⟩
    · simp at hl
    · rcases i with _ | i
      · simp [narrowOk]
      · simp only [narrowOk, List.zipWith_cons_cons, List.getD_cons_succ]
        exact ih l i (by simpa using hi) (by simpa using hl)

theorem foldl_narrowOk_na :
    ∀ (ls : List (List String)) (m : List String) (i : Nat),
    (∀ l ∈ ls, m.length ≤ l.length) → i < m.length → m.getD i "" = "NA" →
    (ls.foldl narrowOk m).getD i "" = "NA"
  | [], _, _, _, _, hna => hna
  | l :: ls, m, i, hlen, hi, hna => by
    rw [List.foldl_cons]
    have hml : m.length ≤ l.length := hlen l (by simp)
    have hlen' : (narrowOk m l).length = m.length := narrowOk_length m l hml
    refine foldl_narrowOk_na ls (narrowOk m l) i
      (fun l' hl' => by rw [hlen']; exact hlen l' (by simp [hl'])) (by omega) ?_
    rw [narrowOk_getD m l i hi hml, hna]
    by_cases hb : ("NA" : String) = l.getD i "" <;> simp [hb]

theorem genMrcaItem_multi (taxid : Dict String) (filt : Dict (List String))
    (c0 c1 : String) (cs : List String) :
    genMrcaItem taxid filt (c0 :: c1 :: cs) =
      match mergeRun taxid ⟨0, "", [], filt⟩ (c0 :: c1 :: cs) with
      | .error e => .error e
      | .ok acc => .ok (acc.mlin, acc.filt) := rfl

/-- A resolvable, non-empty, canonical-length candidate list merges to the
rank-wise narrowing fold, with the running consensus written back to the
first contributing taxon's entry of the lineage dict at every step. -/
theorem mergeRun_good (taxid : Dict String) (tf : String → String)
    (lf : String → List String) :
    ∀ (cs : List String) (F : Dict (List String)) (t0 : String) (m : List String)
      (k : Nat),
    m.length = 7 → dget? F t0 = some m →
    (∀ c ∈ cs, dget? taxid c = some (tf c) ∧ tf c ≠ t0 ∧
      dget? F (tf c) = some (lf c) ∧ (lf c).length = 7 ∧ lf c ≠ []) →
    mergeRun taxid ⟨k + 1, t0, m, F⟩ cs =
      .ok ⟨k + 1 + cs.length, t0, List.foldl narrowOk m (cs.map lf),
        dset F t0 (List.foldl narrowOk m (cs.map lf))⟩
  | [], F, t0, m, k, _, hF, _ => by
    simp [mergeRun, dset_of_dget?_eq F t0 m hF]
  | c :: cs, F, t0, m, k, hm, hF, hcs => by
    obtain ⟨htc, hne, hFc, hlen, hnil⟩ := hcs c (by simp)
    have hstep : mergeStep taxid ⟨k + 1, t0, m, F⟩ c =
        .ok ⟨k + 2, t0, narrowOk m (lf c), dset F t0 (narrowOk m (lf c))⟩ := by
      simp only [mergeStep, htc, ddread, hFc]
      rw [if_neg hnil, if_neg (by simp : ¬(k + 1 = 0))]
      simp [narrowExc, hm, hlen]
    have hrw : mergeRun taxid ⟨k + 1, t0, m, F⟩ (c :: cs) =
        mergeRun taxid ⟨k + 2, t0, narrowOk m (lf c), dset F t0 (narrowOk m (lf c))⟩
          cs := by
      simp [mergeRun, hstep]
    have hrec := mergeRun_good taxid tf lf cs (dset F t0 (narrowOk m (lf c))) t0
      (narrowOk m (lf c)) (k + 1)
      (by rw [narrowOk_length m (lf c) (by omega)]; exact hm)
      (dget?_dset_self _ _ _)
      (by
        intro c' hc'
        obtain ⟨b1, b2, b3, b4, b5⟩ := hcs c' (by simp [hc'])
        exact ⟨b1, b2, by rw [dget?_dset_ne _ _ _ _ (Ne.symm b2)]; exact b3, b4, b5⟩)
    rw [hrw, hrec, dset_dset_same]
    have hcount : k + 1 + 1 + cs.length = k + 1 + (c :: cs).length := by
      simp
      omega
    rw [List.map_cons, List.foldl_cons, hcount]

/-- C1: the MRCA consensus merge rule.  A single-candidate cluster's
consensus is the candidate's stored lineage verbatim (with the lineage dict
untouched); a multi-candidate cluster with resolvable, canonical-length
candidates merges to the left fold of rank-wise narrowing started from the
first candidate's lineage; narrowing compares each position of the running
consensus with the candidate and writes the unknown marker on difference;
and a position once 'NA' stays 'NA' through every later step of the fold. -/
theorem C1_mrca_consensus_merge (taxid : Dict String) (filt : Dict (List String)) :
    (∀ c tid lin, dget? taxid c = some tid → dget? filt tid = some lin →
      genMrcaItem taxid filt [c] = .ok (lin, filt)) ∧
    (∀ c0 c1 cs (tf : String → String) (lf : String → List String),
      (∀ c ∈ c0 :: c1 :: cs, dget? taxid c = some (tf c) ∧
        dget? filt (tf c) = some (lf c) ∧ (lf c).length = 7 ∧ lf c ≠ []) →
      ((c0 :: c1 :: cs).map tf).Nodup →
      ∃ F, genMrcaItem taxid filt (c0 :: c1 :: cs) =
        .ok (List.foldl narrowOk (lf c0) ((c1 :: cs).map lf), F)) ∧
    (∀ (m l : List String) (i : Nat), i < m.length → m.length ≤ l.length →
      (narrowOk m l).getD i "" =
        (if m.getD i "" = l.getD i "" then m.getD i "" else "NA")) ∧
    (∀ (m : List String) (ls : List (List String)) (i : Nat),
      (∀ l ∈ ls, m.length ≤ l.length) → i < m.length →
      m.getD i "" = "NA" → (ls.foldl narrowOk m).getD i "" = "NA") := by
  refine ⟨?_, ?_, ?_, ?_⟩
  case refine_3 =>
    intro m l i hi hl
    exact narrowOk_getD m l i hi hl
  case refine_4 =>
    intro m ls i hlen hi hna
    exact foldl_narrowOk_na ls m i hlen hi hna
  · intro c tid lin htid hlin
    simp [genMrcaItem, htid, ddread, hlin]
  · intro c0 c1 cs tf lf hres hnodup
    obtain ⟨h0t, h0f, h0len, h0ne⟩ := hres c0 (by simp)
    have hseed : mergeStep taxid ⟨0, "", [], filt⟩ c0 = .ok ⟨1, tf c0, lf c0, filt⟩ := by
      simp only [mergeStep, h0t, ddread, h0f]
      rw [if_neg h0ne]
      simp
    have hnotmem : tf c0 ∉ (c1 :: cs).map tf := by
      rw [List.map_cons] at hnodup
      exact (List.nodup_cons.mp hnodup).1
    have hchain : ∀ c ∈ c1 :: cs, dget? taxid c = some (tf c) ∧ tf c ≠ tf c0 ∧
        dget? filt (tf c) = some (lf c) ∧ (lf c).length = 7 ∧ lf c ≠ [] := by
      intro c hc
      obtain ⟨a1, a2, a3, a4⟩ := hres c (by simp [hc])
      refine ⟨a1, ?_, a2, a3, a4⟩
      intro he
      exact hnotmem (he ▸ List.mem_map_of_mem tf hc)
    have hrun := mergeRun_good taxid tf lf (c1 :: cs) filt (tf c0) (lf c0) 0
      h0len h0f hchain
    refine ⟨dset filt (tf c0) (List.foldl narrowOk (lf c0) ((c1 :: cs).map lf)), ?_⟩
    rw [genMrcaItem_multi]
    have hrw : mergeRun taxid ⟨0, "", [], filt⟩ (c0 :: c1 :: cs) =
        mergeRun taxid ⟨1, tf c0, lf c0, filt⟩ (c1 :: cs) := by
      simp [mergeRun, hseed]
    rw [hrw]
    rw [show (1 : Nat) = 0 + 1 from rfl, hrun]

/-- Witness for C1: the single-candidate cluster returns the cat lineage
verbatim, and the two-candidate cluster narrows exactly the species rank. -/
theorem C1_witness :
    genMrcaItem demoTaxid demoFilt ["SpA"] =
      .ok (["An", "Ch", "Ma", "Ca", "Fe", "Fel", "cat"], demoFilt) ∧
    (∃ F, genMrcaItem demoTaxid demoFilt ["SpA", "SpB"] =
      .ok (["An", "Ch", "Ma", "Ca", "Fe", "Fel", "NA"], F)) := by
  constructor
  · exact (C1_mrca_consensus_merge demoTaxid demoFilt).1 "SpA" "1"
      ["An", "Ch", "Ma", "Ca", "Fe", "Fel", "cat"] (by decide) (by decide)
  · obtain ⟨F, hF⟩ := (C1_mrca_consensus_merge demoTaxid demoFilt).2.1 "SpA" "SpB" []
      (fun c => if c = "SpA" then "1" else "2")
      (fun c => if c = "SpA" then ["An", "Ch", "Ma", "Ca", "Fe", "Fel", "cat"]
        else ["An", "Ch", "Ma", "Ca", "Fe", "Fel", "sil"])
      (by decide) (by decide)
    exact ⟨F, hF⟩

/-- A merge over candidates all of whose stored lineages are empty or
absent skips every candidate: count and consensus stay at zero and empty,
only defaultdict inserts may extend the dict. -/
theorem mergeRun_all_empty (taxid : Dict String) (tf : String → String) :
    ∀ (cands : List String) (F : Dict (List String)),
    (∀ c ∈ cands, dget? taxid c = some (tf c) ∧
      (dget? F (tf c) = some [] ∨ dget? F (tf c) = none)) →
    ∃ F', mergeRun taxid ⟨0, "", [], F⟩ cands = .ok ⟨0, "", [], F'⟩
  | [], F, _ => ⟨F, rfl⟩
  | c :: cs, F, h => by
    obtain ⟨htc, hor⟩ := h c (by simp)
    rcases hor with hF | hF
    · have hstep : mergeStep taxid ⟨0, "", [], F⟩ c = .ok ⟨0, "", [], F⟩ := by
        simp [mergeStep, htc, ddread, hF]
      obtain ⟨F', hrun⟩ := mergeRun_all_empty taxid tf cs F
        (fun c' hc' => h c' (by simp [hc']))
      exact ⟨F', by simp [mergeRun, hstep, hrun]⟩
    · have hstep : mergeStep taxid ⟨0, "", [], F⟩ c =
          .ok ⟨0, "", [], dset F (tf c) []⟩ := by
        simp [mergeStep, htc, ddread, hF]
      obtain ⟨F', hrun⟩ := mergeRun_all_empty taxid tf cs (dset F (tf c) [])
        (fun c' hc' => by
          obtain ⟨b1, b2⟩ := h c' (by simp [hc'])
          by_cases he : tf c = tf c'
          · exact ⟨b1, Or.inl (by rw [← he, dget?_dset_self])⟩
          · rcases b2 with b2 | b2
            · exact ⟨b1, Or.inl (by rw [dget?_dset_ne _ _ _ _ he]; exact b2)⟩
            · exact ⟨b1, Or.inr (by rw [dget?_dset_ne _ _ _ _ he]; exact b2)⟩)
      exact ⟨F', by simp [mergeRun, hstep, hrun]⟩

/-- Counterexample to C4: a two-candidate cluster whose candidates both
resolve to taxids with no stored lineage yields the empty consensus
lineage, of length 0, not an all-unknown lineage of the canonical rank
count. -/
theorem C4_counterexample :
    genMrcaItem [("A", "1"), ("B", "2")] [] ["A", "B"] =
      .ok ([], [("1", []), ("2", [])]) ∧
    ([] : List String).length ≠ ranks_needed.length := ⟨rfl, by decide⟩

/-- C4 amended: unresolvable candidates never raise.  A single-candidate
cluster whose name misses the taxid map resolves to the all-'NA' lineage of
canonical length; in the multi-candidate merge a candidate whose stored
lineage is empty or absent is skipped entirely from the narrowing (the
accumulator is unchanged except for the defaultdict insert); and a
multi-candidate cluster all of whose candidates are unresolvable yields the
empty consensus lineage, not a canonical-length one. -/
theorem C4_amended_soft_failure (taxid : Dict String) (filt : Dict (List String)) :
    (∀ c, dget? taxid c = none →
      genMrcaItem taxid filt [c] = .ok (naLineage, filt) ∧
      naLineage.length = ranks_needed.length) ∧
    (∀ (acc : MergeAcc) (c tid : String), dget? taxid c = some tid →
      dget? acc.filt tid = some [] → mergeStep taxid acc c = .ok acc) ∧
    (∀ (acc : MergeAcc) (c tid : String), dget? taxid c = some tid →
      dget? acc.filt tid = none →
      mergeStep taxid acc c =
        .ok ⟨acc.count, acc.firstTid, acc.mlin, dset acc.filt tid []⟩) ∧
    (∀ (cands : List String) (tf : String → String), cands.length ≠ 1 →
      (∀ c ∈ cands, dget? taxid c = some (tf c) ∧
        (dget? filt (tf c) = some [] ∨ dget? filt (tf c) = none)) →
      ∃ F, genMrcaItem taxid filt cands = .ok ([], F)) := by
  refine ⟨?_, ?_, ?_, ?_⟩
  · intro c hc
    exact ⟨by simp [genMrcaItem, hc], rfl⟩
  · intro acc c tid htc hF
    simp [mergeStep, htc, ddread, hF]
  · intro acc c tid htc hF
    simp [mergeStep, htc, ddread, hF]
  · intro cands tf hlen hres
    rcases cands with _ | ⟨c, _ | ⟨c2, cs⟩⟩
    · exact ⟨filt, rfl⟩
    · exact absurd rfl hlen
    · obtain ⟨F', hrun⟩ := mergeRun_all_empty taxid tf (c :: c2 :: cs) filt hres
      exact ⟨F', by rw [genMrcaItem_multi, hrun]⟩

/-- Witness for C4: a name missing from the taxid map resolves to the
all-'NA' lineage without error, and the all-unresolvable two-candidate
cluster merges to the empty lineage without error. -/
theorem C4_witness :
    genMrcaItem ([] : Dict String) demoFilt ["X"] = .ok (naLineage, demoFilt) ∧
    (∃ F, genMrcaItem [("A", "1"), ("B", "2")] [] ["A", "B"] = .ok ([], F)) := by
  refine ⟨((C4_amended_soft_failure ([] : Dict String) demoFilt).1 "X" rfl).1, ?_⟩
  obtain ⟨F, hF⟩ := (C4_amended_soft_failure [("A", "1"), ("B", "2")] []).2.2.2
    ["A", "B"] (fun c => if c = "A" then "1" else "2") (by decide) (by decide)
  exact ⟨F, hF⟩

/-- C9 (code bug): computing the per-cluster consensus mutates the lineage
dict it reads.  The Python mrca_lineage aliases the stored lineage of the
first contributing candidate, so merging the demo cluster rewrites taxon
1's stored lineage to the narrowed consensus: the dict returned by
generate_mrca differs from the dict passed in. -/
theorem C9_lineage_dict_mutated :
    generate_mrca demoSpecies demoFilt demoTaxid =
      .ok ([("Q1", ["An", "Ch", "Ma", "Ca", "Fe", "Fel", "NA"])],
        [("1", ["An", "Ch", "Ma", "Ca", "Fe", "Fel", "NA"]),
         ("2", ["An", "Ch", "Ma", "Ca", "Fe", "Fel", "sil"])]) ∧
    [("1", ["An", "Ch", "Ma", "Ca", "Fe", "Fel", "NA"]),
     ("2", ["An", "Ch", "Ma", "Ca", "Fe", "Fel", "sil"])] ≠ demoFilt :=
  ⟨rfl, by decide⟩

theorem dget?_mem {α : Type} :
    ∀ (d : Dict α) (k : String) (v : α), dget? d k = some v → (k, v) ∈ d
  | [], k, v, h => by simp [dget?] at h
  | (k', w) :: d, k, v, h => by
    by_cases he : k' = k
    · subst he
      simp [dget?] at h
      simp [h]
    · simp [dget?, he] at h
      simp [dget?_mem d k v h]

theorem dkeys_map_val {α β : Type} (f : α → β) :
    ∀ (d : Dict α), dkeys (d.map (fun kv => (kv.1, f kv.2))) = dkeys d
  | [] => rfl
  | kv :: d => by simp [dkeys, dkeys_map_val f d]

theorem blastStep_keys_nodup (st : BlastState) (h : Hit)
    (hn : (dkeys st.blast).Nodup) : (dkeys (blastStep st h).blast).Nodup := by
  rcases blastStep_shape st h with hsh | ⟨bl, v, hsh, -, hbl⟩
  · rw [hsh]; exact hn
  · rw [hsh]
    rcases hbl with rfl | ⟨rfl, -⟩
    · exact dkeys_nodup_dset _ _ _ hn
    · exact hn

theorem blastFold_keys_nodup :
    ∀ (l : List Hit) (st : BlastState), (dkeys st.blast).Nodup →
    (dkeys (l.foldl blastStep st).blast).Nodup
  | [], _, hn => hn
  | h :: l, st, hn => by
    rw [List.foldl_cons]
    exact blastFold_keys_nodup l (blastStep st h) (blastStep_keys_nodup st h hn)

theorem fillFold_keys_nodup :
    ∀ (l : List String) (fs : FilledState), (dkeys fs.blast).Nodup →
    (dkeys (l.foldl fillStep fs).blast).Nodup
  | [], _, hn => hn
  | a :: l, fs, hn => by
    rw [List.foldl_cons]
    refine fillFold_keys_nodup l (fillStep fs a) ?_
    by_cases hi : (dget? fs.blast a).isSome
    · simpa [fillStep, hi] using hn
    · simp only [fillStep, hi, if_false, Bool.false_eq_true]
      exact dkeys_nodup_dset _ _ _ hn

theorem forall2_mem_right {α β : Type} {R : α → β → Prop} :
    ∀ {l1 : List α} {l2 : List β}, List.Forall₂ R l1 l2 →
    ∀ b ∈ l2, ∃ a ∈ l1, R a b := by
  intro l1 l2 h
  induction h with
  | nil => intro b hb; simp at hb
  | cons hr _ ih =>
    intro b hb
    rcases List.mem_cons.mp hb with rfl | hb'
    · exact ⟨_, by simp, hr⟩
    · obtain ⟨a, ha, hab⟩ := ih b hb'
      exact ⟨a, by simp [ha], hab⟩

theorem forall2_mem_left {α β : Type} {R : α → β → Prop} :
    ∀ {l1 : List α} {l2 : List β}, List.Forall₂ R l1 l2 →
    ∀ a ∈ l1, ∃ b ∈ l2, R a b := by
  intro l1 l2 h
  induction h with
  | nil => intro a ha; simp at ha
  | cons hr _ ih =>
    intro a ha
    rcases List.mem_cons.mp ha with rfl | ha'
    · exact ⟨_, by simp, hr⟩
    · obtain ⟨b, hb, hab⟩ := ih a ha'
      exact ⟨b, by simp [hb], hab⟩

theorem forall2_otu_map :
    ∀ (l1 : Dict (Option (ℚ × Int))) (l2 : List Row),
    List.Forall₂ (fun (kv : String × Option (ℚ × Int)) (r : Row) => r.otu = kv.1)
      l1 l2 → l2.map Row.otu = dkeys l1 := by
  intro l1 l2 h
  induction h with
  | nil => rfl
  | cons hr _ ih => simp only [List.map_cons, dkeys, ih, hr]

/-- write_output succeeds when every best-hit key has a consensus entry,
producing one row per key in key order carrying the stored consensus, the
stored quality pair and the stored candidate list. -/
theorem write_output_rows :
    ∀ (blast : Dict (Option (ℚ × Int))) (mrca : Dict (List String))
      (species : Dict (List String)),
    (∀ k ∈ dkeys blast, (dget? mrca k).isSome) →
    ∃ rows, write_output blast mrca species = .ok rows ∧
      List.Forall₂ (fun (kv : String × Option (ℚ × Int)) (r : Row) =>
        r.otu = kv.1 ∧ dget? mrca kv.1 = some r.lineage ∧
        r.pident = kv.2.map Prod.fst ∧ r.qcov = kv.2.map Prod.snd ∧
        r.taxa = dgetD species kv.1 []) blast rows
  | [], _, _, _ => ⟨[], rfl, List.Forall₂.nil⟩
  | kv :: rest, mrca, species, h => by
    have hk : (dget? mrca kv.1).isSome := h kv.1 (by simp [dkeys])
    obtain ⟨lin, hlin⟩ := Option.isSome_iff_exists.mp hk
    obtain ⟨rows, hrows, hf⟩ := write_output_rows rest mrca species
      (fun k hk2 => h k (List.mem_cons_of_mem kv.1 hk2))
    refine ⟨⟨kv.1, lin, kv.2.map Prod.fst, kv.2.map Prod.snd,
      dgetD species kv.1 []⟩ :: rows, ?_, ?_⟩
    · simp [write_output, hlin, hrows]
    · exact List.Forall₂.cons ⟨rfl, by rw [hlin], rfl, rfl, rfl⟩ hf

/-- Counterexample to C5: with universe [Z1, Z2] and a single hit for Z2,
the report rows come out in best-hit insertion order [Z2, Z1], not in
ClusterUniverse order [Z1, Z2]. -/
theorem C5_counterexample :
    ∃ mrca fl rows,
      generate_mrca (fill_out_blast_dict demoZotu (blastFold demoHits)).species
        demoFilt demoTaxid = .ok (mrca, fl) ∧
      write_output (fill_out_blast_dict demoZotu (blastFold demoHits)).blast mrca
        (fill_out_blast_dict demoZotu (blastFold demoHits)).species = .ok rows ∧
      rows.map Row.otu = ["Z2", "Z1"] ∧ ["Z2", "Z1"] ≠ demoZotu := by
  refine ⟨demoMrca, demoFilt, _, rfl, rfl, rfl, by decide⟩

/-- C5 amended: the report has one row per key of the filled best-hit dict,
in that dict's insertion order (hit first-seen order followed by back-filled
universe ids) rather than ClusterUniverse order; every universe id appears
in exactly one row; each row carries the cluster id, the stored consensus
lineage, the stored identity/coverage pair and the stored candidate list;
and a cluster with no hit gets the NA pair and the single 'NA' candidate
rather than being omitted. -/
theorem C5_amended_report_shape (hits : List Hit) (zotu : List String)
    (mrca : Dict (List String))
    (hm : ∀ k ∈ dkeys (fill_out_blast_dict zotu (blastFold hits)).blast,
      (dget? mrca k).isSome) :
    ∃ rows,
      write_output (fill_out_blast_dict zotu (blastFold hits)).blast mrca
        (fill_out_blast_dict zotu (blastFold hits)).species = .ok rows ∧
      rows.map Row.otu = dkeys (fill_out_blast_dict zotu (blastFold hits)).blast ∧
      (rows.map Row.otu).Nodup ∧
      (∀ z ∈ zotu, z ∈ rows.map Row.otu) ∧
      (∀ z ∈ zotu, (rows.map Row.otu).count z = 1) ∧
      (∀ r ∈ rows, dget? mrca r.otu = some r.lineage ∧
        r.taxa = dgetD (fill_out_blast_dict zotu (blastFold hits)).species r.otu []) ∧
      (∀ z ∈ zotu, dget? (blastFold hits).blast z = none →
        ∃ r ∈ rows, r.otu = z ∧ r.pident = none ∧ r.qcov = none ∧
          r.taxa = ["NA"]) := by
  obtain ⟨rows, hw, hf⟩ := write_output_rows
    (fill_out_blast_dict zotu (blastFold hits)).blast mrca
    (fill_out_blast_dict zotu (blastFold hits)).species hm
  have hmap : rows.map Row.otu =
      dkeys (fill_out_blast_dict zotu (blastFold hits)).blast :=
    forall2_otu_map _ rows (hf.imp (fun _ _ hab => hab.1))
  have hnodup : (dkeys (fill_out_blast_dict zotu (blastFold hits)).blast).Nodup := by
    refine fillFold_keys_nodup zotu _ ?_
    show (dkeys ((blastFold hits).blast.map (fun kv => (kv.1, some kv.2)))).Nodup
    rw [dkeys_map_val]
    exact blastFold_keys_nodup hits emptyBlastState (by simp [emptyBlastState, dkeys])
  have hmem : ∀ z ∈ zotu,
      z ∈ dkeys (fill_out_blast_dict zotu (blastFold hits)).blast := by
    intro z hz
    rw [← dget?_isSome_iff_mem_dkeys]
    exact fillFold_mem zotu _ z hz
  refine ⟨rows, hw, hmap, by rw [hmap]; exact hnodup, ?_, ?_, ?_, ?_⟩
  · intro z hz
    rw [hmap]
    exact hmem z hz
  · intro z hz
    refine List.count_eq_one_of_mem (by rw [hmap]; exact hnodup) ?_
    rw [hmap]
    exact hmem z hz
  · intro r hr
    obtain ⟨kv, -, hR⟩ := forall2_mem_right hf r hr
    obtain ⟨h1, h2, -, -, h5⟩ := hR
    exact ⟨by rw [h1]; exact h2, by rw [h1]; exact h5⟩
  · intro z hz hz0
    have hsp0 : dget? (blastFold hits).species z = none := by
      rcases hspc : dget? (blastFold hits).species z with _ | cur
      · rfl
      · exfalso
        have hsy := blastFold_sync hits emptyBlastState
          (by intro k; simp [emptyBlastState, dget?]) z
        have h2 : (dget? (blastFold hits).blast z).isSome := hsy.mpr
          (by show (dget? (blastFold hits).species z).isSome = true
              rw [hspc]
              rfl)
        rw [hz0] at h2
        simp at h2
    have hfill := fillFold_fills zotu
      ⟨(blastFold hits).blast.map (fun kv => (kv.1, some kv.2)),
        (blastFold hits).species⟩ z hz
      (by show dget? ((blastFold hits).blast.map (fun kv => (kv.1, some kv.2))) z = none
          rw [dget?_map_val, hz0]; rfl)
      hsp0
    have hfill2 : dget? (fill_out_blast_dict zotu (blastFold hits)).blast z =
        some none ∧
        dget? (fill_out_blast_dict zotu (blastFold hits)).species z =
        some ["NA"] := hfill
    have hkv : (z, (none : Option (ℚ × Int))) ∈
        (fill_out_blast_dict zotu (blastFold hits)).blast :=
      dget?_mem _ z none hfill2.1
    obtain ⟨r, hrmem, hR⟩ := forall2_mem_left hf (z, none) hkv
    obtain ⟨h1, -, h3, h4, h5⟩ := hR
    refine ⟨r, hrmem, h1, by rw [h3]; rfl, by rw [h4]; rfl, ?_⟩
    rw [h5]
    show dgetD (fill_out_blast_dict zotu (blastFold hits)).species z [] = ["NA"]
    rw [dgetD, hfill2.2]
    rfl

/-- Witness for C5 on the concrete pipeline: the report succeeds and its
row order is the best-hit dict order [Z2, Z1]. -/
theorem C5_witness :
    ∃ rows,
      write_output (fill_out_blast_dict demoZotu (blastFold demoHits)).blast demoMrca
        (fill_out_blast_dict demoZotu (blastFold demoHits)).species = .ok rows ∧
      rows.map Row.otu = ["Z2", "Z1"] := by
  obtain ⟨rows, hw, hmap, -⟩ :=
    C5_amended_report_shape demoHits demoZotu demoMrca (by decide)
  exact ⟨rows, hw, hmap⟩

end Alex
